import Mathlib

/-!
Verification of the gwctl effective-policy tool.

The repository ships two command files (`describe.go`, `get.go`) that
dispatch on resource type, read the namespace flags and call into the
effective-policy core (policy manager, hierarchy resolver, merge engine,
calculator).  The command layer is embedded directly from the Go source;
the effective-policy core, whose source is not part of the two shipped
files, is modelled from the specification.
-/

set_option maxHeartbeats 1000000

namespace GatewayApi

/-- Modelled from the spec: generic policy payload value tree
(`PolicyValue`: tagged variant over Null, Bool, Number, String,
ordered list, ordered mapping of field name to value). -/
inductive PolicyValue where
  | null : PolicyValue
  | bool : Bool → PolicyValue
  | num : Int → PolicyValue
  | str : String → PolicyValue
  | list : List PolicyValue → PolicyValue
  | obj : List (String × PolicyValue) → PolicyValue
deriving Inhabited

/-- Constructor discriminant of a `PolicyValue`, used to detect type
mismatches between base and override during a structural merge. -/
def typeTag : PolicyValue → Nat
  | .null => 0
  | .bool _ => 1
  | .num _ => 2
  | .str _ => 3
  | .list _ => 4
  | .obj _ => 5

/-- Whether a value is an object (mapping). -/
def isObj : PolicyValue → Bool
  | .obj _ => true
  | _ => false

/-- Whether a value is a scalar (Bool, Number, String) or Null. -/
def isScalarOrNull : PolicyValue → Bool
  | .null => true
  | .bool _ => true
  | .num _ => true
  | .str _ => true
  | _ => false

/-- First binding of key `k` in an ordered field list. -/
def lookupField : List (String × PolicyValue) → String → Option PolicyValue
  | [], _ => none
  | (k', v) :: rest, k => if k' = k then some v else lookupField rest k

/-- Value stored at a field path (sequence of field names) in a value
tree, descending through objects only. -/
def lookupPath : PolicyValue → List String → Option PolicyValue
  | v, [] => some v
  | .obj fs, k :: rest =>
    match lookupField fs k with
    | some v => lookupPath v rest
    | none => none
  | _, _ :: _ => none

mutual

/-- Modelled from the spec: the MergeEngine's structural merge of two
field trees, `override` having strictly higher precedence than `base`.
Objects merge recursively field by field, a field present in only one
side is carried through; every other pairing (scalars, Null, arrays,
and type mismatches) resolves to `override`'s whole value. -/
def merge : PolicyValue → PolicyValue → PolicyValue
  | .obj bf, .obj of =>
    .obj (mergeFields of bf ++ of.filter fun p => (lookupField bf p.1).isNone)
  | _, o => o
termination_by b _ => sizeOf b

/-- The base-side field walk of the object merge: each base field is
merged with the override field of the same name when that exists, and
carried through unchanged otherwise. -/
def mergeFields (of : List (String × PolicyValue)) :
    List (String × PolicyValue) → List (String × PolicyValue)
  | [] => []
  | (k, bv) :: rest =>
    (k, match lookupField of k with
        | some ov => merge bv ov
        | none => bv) :: mergeFields of rest
termination_by bf => sizeOf bf

end

mutual

/-- Modelled from the spec: the field paths at which `base` and
`override` hold values of different types (each a `MergeConflict`,
resolved by override-wins and surfaced for diagnostics). -/
def mergeConflicts : PolicyValue → PolicyValue → List (List String)
  | .obj bf, .obj of => mergeConflictsFields of bf
  | b, o => if typeTag b = typeTag o then [] else [[]]
termination_by b _ => sizeOf b

/-- Conflict paths contributed by the common fields of two objects. -/
def mergeConflictsFields (of : List (String × PolicyValue)) :
    List (String × PolicyValue) → List (List String)
  | [] => []
  | (k, bv) :: rest =>
    (match lookupField of k with
     | some ov => (mergeConflicts bv ov).map fun q => k :: q
     | none => []) ++ mergeConflictsFields of rest
termination_by bf => sizeOf bf

end

/-- Modelled from the spec: a policy value tree whose leaves (Null,
scalars, and whole arrays, which merge atomically) each carry the name
of the PolicyInstance that supplied them, so that per-field provenance
survives merging. -/
inductive TaggedValue where
  | null : String → TaggedValue
  | bool : Bool → String → TaggedValue
  | num : Int → String → TaggedValue
  | str : String → String → TaggedValue
  | list : List PolicyValue → String → TaggedValue
  | obj : List (String × TaggedValue) → TaggedValue
deriving Inhabited

/-- First binding of key `k` in an ordered tagged field list. -/
def lookupFieldT : List (String × TaggedValue) → String → Option TaggedValue
  | [], _ => none
  | (k', v) :: rest, k => if k' = k then some v else lookupFieldT rest k

mutual

/-- Forget the provenance tags of a tagged value tree. -/
def untag : TaggedValue → PolicyValue
  | .null _ => .null
  | .bool b _ => .bool b
  | .num n _ => .num n
  | .str s _ => .str s
  | .list xs _ => .list xs
  | .obj fs => .obj (untagFields fs)
termination_by t => sizeOf t

/-- Forget the provenance tags of a tagged field list. -/
def untagFields : List (String × TaggedValue) → List (String × PolicyValue)
  | [] => []
  | (k, v) :: rest => (k, untag v) :: untagFields rest
termination_by fs => sizeOf fs

end

mutual

/-- Tag every leaf of a value tree with one instance name. -/
def tagAll (tg : String) : PolicyValue → TaggedValue
  | .null => .null tg
  | .bool b => .bool b tg
  | .num n => .num n tg
  | .str s => .str s tg
  | .list xs => .list xs tg
  | .obj fs => .obj (tagAllFields tg fs)
termination_by v => sizeOf v

/-- Tag every leaf below a field list with one instance name. -/
def tagAllFields (tg : String) :
    List (String × PolicyValue) → List (String × TaggedValue)
  | [] => []
  | (k, v) :: rest => (k, tagAll tg v) :: tagAllFields tg rest
termination_by fs => sizeOf fs

end

mutual

/-- Modelled from the spec: the structural merge on tagged trees, the
same algorithm as `merge` with provenance carried along. -/
def mergeT : TaggedValue → TaggedValue → TaggedValue
  | .obj bf, .obj of =>
    .obj (mergeFieldsT of bf ++ of.filter fun p => (lookupFieldT bf p.1).isNone)
  | _, o => o
termination_by b _ => sizeOf b

/-- The base-side field walk of the tagged object merge. -/
def mergeFieldsT (of : List (String × TaggedValue)) :
    List (String × TaggedValue) → List (String × TaggedValue)
  | [] => []
  | (k, bv) :: rest =>
    (k, match lookupFieldT of k with
        | some ov => mergeT bv ov
        | none => bv) :: mergeFieldsT of rest
termination_by bf => sizeOf bf

end

mutual

/-- Provenance of a tagged tree: each leaf path paired with the name of
the instance whose value survived there. -/
def provOf : TaggedValue → List (List String × String)
  | .null tg => [([], tg)]
  | .bool _ tg => [([], tg)]
  | .num _ tg => [([], tg)]
  | .str _ tg => [([], tg)]
  | .list _ tg => [([], tg)]
  | .obj fs => provOfFields fs
termination_by t => sizeOf t

/-- Provenance entries contributed by a tagged field list. -/
def provOfFields : List (String × TaggedValue) → List (List String × String)
  | [] => []
  | (k, v) :: rest =>
    (provOf v).map (fun pr => (k :: pr.1, pr.2)) ++ provOfFields rest
termination_by fs => sizeOf fs

end

/-- Instance names appearing in a tagged tree's provenance. -/
def provTags (t : TaggedValue) : List String :=
  (provOf t).map Prod.snd

/-- (group, kind) identity of a policy CRD. -/
structure GroupKind where
  group : String
  kind : String
deriving DecidableEq

/-- (kind, namespace, name) identity of a Gateway API object. -/
structure ResourceRef where
  kind : String
  ns : String
  name : String
deriving DecidableEq

/-- Modelled from the spec: whether a policy kind applies only to its
direct target or also to descendants of its target. -/
inductive InheritanceScope where
  | directOnly
  | inheritable
deriving DecidableEq

/-- Modelled from the spec: a policy CRD definition. -/
structure PolicyCRD where
  groupKind : GroupKind
  targetKinds : List String
  inheritanceScope : InheritanceScope

/-- Modelled from the spec: a policy instance with its target
reference, creation timestamp, name and payload. -/
structure PolicyInstance where
  groupKind : GroupKind
  targetRef : ResourceRef
  creationTime : Nat
  name : String
  value : PolicyValue

/-- Modelled from the spec: one immutable cluster snapshot — the
registered CRDs, the policy instances, and the materialized
parent edges of the resource graph. -/
structure GraphSnapshot where
  crds : List PolicyCRD
  instances : List PolicyInstance
  parent : ResourceRef → Option ResourceRef

/-- Non-fatal diagnostics of the core. -/
inductive Warning where
  | cycleDetected
  | mergeConflict (path : List String)
  | ambiguousPolicy
deriving DecidableEq

/-- Fixed maximum depth of the Gateway API hierarchy
(Backend → HTTPRoute → Gateway → GatewayClass). -/
def maxHierarchyDepth : Nat := 4

/-- Modelled from the spec: the HierarchyResolver's chain walk.  Follows
parent edges, stops at a missing parent, halts with a `CycleDetected`
warning when the next parent was already visited, and is bounded by the
remaining fuel. -/
def ancestorChainAux (parent : ResourceRef → Option ResourceRef) :
    Nat → ResourceRef → List ResourceRef → List ResourceRef × List Warning
  | 0, _, _ => ([], [])
  | fuel + 1, cur, visited =>
    match parent cur with
    | none => ([], [])
    | some p =>
      if p ∈ visited then ([], [Warning.cycleDetected])
      else
        let r := ancestorChainAux parent fuel p (p :: visited)
        (p :: r.1, r.2)

/-- Modelled from the spec: `ancestorChain` — ordered ancestors of a
target, nearest first, bounded by the fixed hierarchy depth. -/
def ancestorChain (snap : GraphSnapshot) (target : ResourceRef) :
    List ResourceRef × List Warning :=
  ancestorChainAux snap.parent maxHierarchyDepth target [target]

/-- The `n`-fold parent of a resource in a snapshot's graph, used to
state what the true (unbounded) ancestor sequence looks like. -/
def parentIter (parent : ResourceRef → Option ResourceRef)
    (start : ResourceRef) : Nat → Option ResourceRef
  | 0 => some start
  | n + 1 => (parentIter parent start n).bind parent

/-- Modelled from the spec: `crdFor` — the registered CRD of a policy
group+kind, if any. -/
def crdFor (snap : GraphSnapshot) (gk : GroupKind) : Option PolicyCRD :=
  snap.crds.find? fun c => decide (c.groupKind = gk)

/-- Modelled from the spec: an instance is indexed by the catalog only
if its kind is registered and its target's kind is a supported target
kind of that CRD; otherwise it is dropped with a warning. -/
def instanceValid (snap : GraphSnapshot) (i : PolicyInstance) : Bool :=
  match crdFor snap i.groupKind with
  | some crd => decide (i.targetRef.kind ∈ crd.targetKinds)
  | none => false

/-- Modelled from the spec: the catalog's deterministic ordering of
same-tier instances — creation timestamp ascending, then name
ascending. -/
def instRel (a b : PolicyInstance) : Prop :=
  a.creationTime < b.creationTime ∨
    (a.creationTime = b.creationTime ∧ a.name ≤ b.name)

instance : DecidableRel instRel := fun a b => by
  unfold instRel
  infer_instance

instance : IsTotal PolicyInstance instRel := by
  constructor
  intro a b
  unfold instRel
  rcases Nat.lt_trichotomy a.creationTime b.creationTime with h | h | h
  · exact Or.inl (Or.inl h)
  · rcases le_total a.name b.name with hn | hn
    · exact Or.inl (Or.inr ⟨h, hn⟩)
    · exact Or.inr (Or.inr ⟨h.symm, hn⟩)
  · exact Or.inr (Or.inl h)

instance : IsTrans PolicyInstance instRel := by
  constructor
  intro a b c hab hbc
  unfold instRel at *
  rcases hab with h1 | ⟨h1, h1'⟩ <;> rcases hbc with h2 | ⟨h2, h2'⟩
  · exact Or.inl (h1.trans h2)
  · exact Or.inl (h2 ▸ h1)
  · exact Or.inl (h1 ▸ h2)
  · exact Or.inr ⟨h1.trans h2, h1'.trans h2'⟩

/-- Modelled from the spec: `policiesTargeting` restricted to one
policy kind — the valid instances whose target reference equals the
given ref, in the catalog's deterministic order. -/
def policiesTargeting (snap : GraphSnapshot) (gk : GroupKind)
    (ref : ResourceRef) : List PolicyInstance :=
  List.insertionSort instRel
    (snap.instances.filter fun i =>
      instanceValid snap i && decide (i.groupKind = gk) &&
        decide (i.targetRef = ref))

/-- Modelled from the spec: the pre-merge of one precedence tier.  The
oldest instance's fields are the base and each later instance layers on
top only where it adds fields not already set, so the accumulated value
is the override at every step. -/
def tierMergedT (snap : GraphSnapshot) (gk : GroupKind)
    (ref : ResourceRef) : Option TaggedValue :=
  (policiesTargeting snap gk ref).foldl
    (fun acc i =>
      match acc with
      | none => some (tagAll i.name i.value)
      | some a => some (mergeT (tagAll i.name i.value) a))
    none

/-- Merge of two optional tier values, `override` winning; an absent
tier contributes nothing. -/
def mergeOptT : Option TaggedValue → Option TaggedValue → Option TaggedValue
  | none, o => o
  | some b, none => some b
  | some b, some o => some (mergeT b o)

/-- Modelled from the spec: whether the CRD of this policy kind is
marked `Inheritable` (only then do ancestor-attached instances apply
to a descendant). -/
def inheritableKind (snap : GraphSnapshot) (gk : GroupKind) : Bool :=
  match crdFor snap gk with
  | some crd => decide (crd.inheritanceScope = InheritanceScope.inheritable)
  | none => false

/-- Modelled from the spec: the calculator's tier walk.  Tier 0 is the
target itself (Direct policies, applicable regardless of scope); the
ancestor tiers participate only for an Inheritable kind.  Accumulation
starts from the farthest tier as base and applies each nearer tier as
override, tier 0 last. -/
def effectiveTagged (snap : GraphSnapshot) (target : ResourceRef)
    (gk : GroupKind) : Option TaggedValue :=
  let chain := (ancestorChain snap target).1
  let tiers := target :: (if inheritableKind snap gk then chain else [])
  (tiers.map fun ref => tierMergedT snap gk ref).foldr
    (fun tv acc => mergeOptT acc tv) none

/-- Result of the calculator: the merged value plus per-field-path
provenance. -/
structure EffectivePolicy where
  value : PolicyValue
  provenance : List (List String × String)

/-- Modelled from the spec: `computeEffectivePolicy` for one
(target, policy kind) pair over one snapshot, returning the effective
policy and the warnings gathered during chain resolution. -/
def computeEffectivePolicy (snap : GraphSnapshot) (target : ResourceRef)
    (gk : GroupKind) : EffectivePolicy × List Warning :=
  let et := effectiveTagged snap target gk
  ({ value := (et.map untag).getD (.obj []),
     provenance := (et.map provOf).getD [] },
   (ancestorChain snap target).2)

/-- Outcome of running one command: either `os.Exit(1)` was reached
after writing `msg` to the error stream, or the run function returned
normally (process exit code 0) having printed `printed` resources and
written `stderr` lines. -/
inductive CmdResult where
  | exit1 (msg : String)
  | done (printed : List String) (stderr : List String)
deriving DecidableEq

/-- Process exit code of a command outcome. -/
def exitCode : CmdResult → Nat
  | .exit1 _ => 1
  | .done _ _ => 0

/-- Environment a command invocation runs against: the flag values and
read errors reported by the flag library, the policy manager's maps,
and the cluster fetch helpers (each may fail with an error string). -/
structure CmdWorld where
  getStringErr : Bool
  getBoolErr : Bool
  nsFlag : Option String
  allNsFlag : Bool
  getPolicy : String → Option String
  allPolicies : List String
  allPolicyCRDs : List String
  listHTTPRoutes : String → Except String (List String)
  getHTTPRoute : String → String → Except String String
  listGateways : String → Except String (List String)
  getGateway : String → String → Except String String
  listGatewayClasses : Except String (List String)
  getGatewayClass : String → Except String String
  listBackends : String → String → Except String (List String)
  getBackend : String → String → String → Except String String

/-- The value `cmd.Flags().GetString("namespace")` yields when it does
not error: the `-n` value if provided, else the registered default
`"default"` (describe.go line 46, get.go line 43). -/
def readNamespaceFlag (w : CmdWorld) : String :=
  w.nsFlag.getD "default"

/-- The effective namespace after the `if allNs { ns = "" }` step
shared by `runDescribe` (describe.go lines 66-68) and `runGet`
(get.go lines 63-65). -/
def computedNs (w : CmdWorld) : String :=
  if w.allNsFlag then "" else readNamespaceFlag w

/-- The policy-by-name lookup of describe.go lines 83-90: first under
`ns + "/" + name`; when that misses and `ns == "default"`, a second
cluster-scoped lookup under `"/" + name`. -/
def describePolicyLookup (w : CmdWorld) (ns n : String) : Option String :=
  match w.getPolicy (ns ++ "/" ++ n) with
  | some p => some p
  | none => if ns = "default" then w.getPolicy ("/" ++ n) else none

/-- `runDescribe` of describe.go: flag reads (exit 1 on error),
namespace resolution, then the switch on the resource-type argument. -/
def runDescribe (w : CmdWorld) (kind : String) (name? : Option String) :
    CmdResult :=
  if w.getStringErr then .exit1 "failed to read flag \"namespace\""
  else if w.getBoolErr then .exit1 "failed to read flag \"all-namespaces\""
  else
    let ns := computedNs w
    if kind = "policy" ∨ kind = "policies" then
      match name? with
      | none => .done w.allPolicies []
      | some n => .done (describePolicyLookup w ns n).toList []
    else if kind = "httproute" ∨ kind = "httproutes" then
      match name? with
      | none =>
        match w.listHTTPRoutes ns with
        | .error e => .exit1 ("failed to list HTTPRoute resources: " ++ e)
        | .ok xs => .done xs []
      | some n =>
        match w.getHTTPRoute ns n with
        | .error e => .exit1 ("failed to get HTTPRoute resource: " ++ e)
        | .ok x => .done [x] []
    else if kind = "gateway" ∨ kind = "gateways" then
      match name? with
      | none =>
        match w.listGateways ns with
        | .error e => .exit1 ("failed to list Gateway resources: " ++ e)
        | .ok xs => .done xs []
      | some n =>
        match w.getGateway ns n with
        | .error e => .exit1 ("failed to get Gateway resource: " ++ e)
        | .ok x => .done [x] []
    else if kind = "gatewayclass" ∨ kind = "gatewayclasses" then
      match name? with
      | none =>
        match w.listGatewayClasses with
        | .error e => .exit1 ("failed to list GatewayClass resources: " ++ e)
        | .ok xs => .done xs []
      | some n =>
        match w.getGatewayClass n with
        | .error e => .exit1 ("failed to get GatewayClass resource: " ++ e)
        | .ok x => .done [x] []
    else if kind = "backend" ∨ kind = "backends" then
      match name? with
      | none =>
        match w.listBackends "service" ns with
        | .error e => .exit1 ("failed to list Backend resources: " ++ e)
        | .ok xs => .done xs []
      | some n =>
        match w.getBackend "service" ns n with
        | .error e => .exit1 ("failed to get Backend resource: " ++ e)
        | .ok x => .done [x] []
    else
      .done [] ["Unrecognized RESOURCE_TYPE"]

/-- `runGet` of get.go: flag reads, namespace resolution, then the
switch on the resource-type argument. -/
def runGet (w : CmdWorld) (kind : String) : CmdResult :=
  if w.getStringErr then .exit1 "failed to read flag \"namespace\""
  else if w.getBoolErr then .exit1 "failed to read flag \"all-namespaces\""
  else
    let ns := computedNs w
    if kind = "policy" ∨ kind = "policies" then
      .done w.allPolicies []
    else if kind = "policycrds" then
      .done w.allPolicyCRDs []
    else if kind = "httproute" ∨ kind = "httproutes" then
      match w.listHTTPRoutes ns with
      | .error e => .exit1 ("failed to list HTTPRoute resources: " ++ e)
      | .ok xs => .done xs []
    else
      .done [] ["Unrecognized RESOURCE_TYPE"]

/-- Resource-type names recognized by the describe switch. -/
def recognizedDescribeKinds : List String :=
  ["policy", "policies", "httproute", "httproutes", "gateway", "gateways",
   "gatewayclass", "gatewayclasses", "backend", "backends"]

/-- Resource-type names recognized by the get switch. -/
def recognizedGetKinds : List String :=
  ["policy", "policies", "policycrds", "httproute", "httproutes"]

theorem merge_obj_obj (bf of : List (String × PolicyValue)) :
    merge (.obj bf) (.obj of) =
      .obj (mergeFields of bf ++
        of.filter fun p => (lookupField bf p.1).isNone) := by
  rw [merge]

theorem merge_eq_snd {b o : PolicyValue}
    (h : isObj b = false ∨ isObj o = false) : merge b o = o := by
  cases b <;> cases o
  case obj.obj => simp [isObj] at h
  all_goals simp [merge]

theorem mergeConflicts_not_both_obj {b o : PolicyValue}
    (h : isObj b = false ∨ isObj o = false) :
    mergeConflicts b o = if typeTag b = typeTag o then [] else [[]] := by
  cases b <;> cases o
  case obj.obj => simp [isObj] at h
  all_goals simp [mergeConflicts]

theorem mergeConflicts_obj_obj (bf of : List (String × PolicyValue)) :
    mergeConflicts (.obj bf) (.obj of) = mergeConflictsFields of bf := by
  rw [mergeConflicts]

theorem lookupField_append (l₁ l₂ : List (String × PolicyValue)) (k : String) :
    lookupField (l₁ ++ l₂) k =
      match lookupField l₁ k with
      | some v => some v
      | none => lookupField l₂ k := by
  induction l₁ with
  | nil => simp [lookupField]
  | cons p rest ih =>
    obtain ⟨k', v⟩ := p
    by_cases hk : k' = k
    · simp [lookupField, hk]
    · simp [lookupField, hk, ih]

theorem lookupField_mergeFields (of bf : List (String × PolicyValue))
    (k : String) :
    lookupField (mergeFields of bf) k =
      match lookupField bf k with
      | some bv =>
        some (match lookupField of k with
              | some ov => merge bv ov
              | none => bv)
      | none => none := by
  induction bf with
  | nil => simp [mergeFields, lookupField]
  | cons p rest ih =>
    obtain ⟨k', bv⟩ := p
    by_cases hk : k' = k
    · simp [mergeFields, lookupField, hk]
    · simp [mergeFields, lookupField, hk, ih]

theorem lookupField_filter (of : List (String × PolicyValue))
    (pred : String → Bool) (k : String) :
    lookupField (of.filter fun p => pred p.1) k =
      if pred k then lookupField of k else none := by
  induction of with
  | nil => simp [lookupField]
  | cons p rest ih =>
    obtain ⟨k', v⟩ := p
    by_cases hk : k' = k
    · subst hk
      by_cases hp : pred k'
      · simp [lookupField, hp]
      · simp [lookupField, hp, ih, hp]
    · by_cases hp : pred k'
      · simp [lookupField, hp, hk, ih]
      · simp [lookupField, hp, hk, ih]

theorem lookupField_mergeObj (bf of : List (String × PolicyValue))
    (k : String) :
    lookupField (mergeFields of bf ++
        of.filter fun p => (lookupField bf p.1).isNone) k =
      match lookupField bf k, lookupField of k with
      | some bv, some ov => some (merge bv ov)
      | some bv, none => some bv
      | none, some ov => some ov
      | none, none => none := by
  rw [lookupField_append, lookupField_mergeFields,
    lookupField_filter of (fun key => (lookupField bf key).isNone) k]
  cases hb : lookupField bf k <;> cases ho : lookupField of k <;> simp

theorem exists_obj_of_isObj {b : PolicyValue} (h : isObj b = true) :
    ∃ bf, b = PolicyValue.obj bf := by
  cases b <;> simp [isObj] at h ⊢

theorem lookupPath_nil (v : PolicyValue) : lookupPath v [] = some v := by
  rw [lookupPath]

theorem lookupPath_obj_cons (fs : List (String × PolicyValue))
    (k : String) (rest : List String) :
    lookupPath (.obj fs) (k :: rest) =
      match lookupField fs k with
      | some v => lookupPath v rest
      | none => none := by
  rw [lookupPath]

theorem lookupPath_cons_elim {o : PolicyValue} {k : String}
    {rest : List String} {v : PolicyValue}
    (h : lookupPath o (k :: rest) = some v) :
    ∃ of ov, o = PolicyValue.obj of ∧ lookupField of k = some ov ∧
      lookupPath ov rest = some v := by
  cases o with
  | obj of =>
    rw [lookupPath_obj_cons] at h
    cases hf : lookupField of k with
    | none => rw [hf] at h; exact absurd h (by simp)
    | some ov => rw [hf] at h; exact ⟨of, ov, rfl, hf, h⟩
  | null => simp [lookupPath] at h
  | bool x => simp [lookupPath] at h
  | num x => simp [lookupPath] at h
  | str x => simp [lookupPath] at h
  | list x => simp [lookupPath] at h

theorem lookupPath_merge_override {P : List String} :
    ∀ {b o v : PolicyValue}, lookupPath o P = some v → isObj v = false →
      lookupPath (merge b o) P = some v := by
  induction P with
  | nil =>
    intro b o v ho hv
    rw [lookupPath_nil] at ho
    obtain rfl : o = v := by injection ho
    rw [merge_eq_snd (Or.inr hv), lookupPath_nil]
  | cons k rest ih =>
    intro b o v ho hv
    obtain ⟨of, ov, rfl, hf, ho'⟩ := lookupPath_cons_elim ho
    by_cases hbo : isObj b = true
    · obtain ⟨bf, rfl⟩ := exists_obj_of_isObj hbo
      rw [merge_obj_obj, lookupPath_obj_cons, lookupField_mergeObj]
      cases hbf : lookupField bf k with
      | none => simpa [hf] using ho'
      | some bv => simpa [hf] using ih ho' hv
    · rw [merge_eq_snd (Or.inl (by simpa using hbo))]
      exact ho

theorem lookupPath_merge_origin {P : List String} :
    ∀ {b o v : PolicyValue}, lookupPath (merge b o) P = some v →
      isObj v = false →
      lookupPath b P = some v ∨ lookupPath o P = some v := by
  induction P with
  | nil =>
    intro b o v hm hv
    rw [lookupPath_nil] at hm
    obtain rfl : merge b o = v := by injection hm
    by_cases hb : isObj b = true
    · by_cases hoo : isObj o = true
      · obtain ⟨bf, rfl⟩ := exists_obj_of_isObj hb
        obtain ⟨of, rfl⟩ := exists_obj_of_isObj hoo
        rw [merge_obj_obj] at hv
        simp [isObj] at hv
      · rw [merge_eq_snd (Or.inr (by simpa using hoo))]
        exact Or.inr (lookupPath_nil _)
    · rw [merge_eq_snd (Or.inl (by simpa using hb))]
      exact Or.inr (lookupPath_nil _)
  | cons k rest ih =>
    intro b o v hm hv
    by_cases hb : isObj b = true
    · by_cases hoo : isObj o = true
      · obtain ⟨bf, rfl⟩ := exists_obj_of_isObj hb
        obtain ⟨of, rfl⟩ := exists_obj_of_isObj hoo
        rw [merge_obj_obj, lookupPath_obj_cons, lookupField_mergeObj] at hm
        cases hbf : lookupField bf k with
        | some bv =>
          cases hof : lookupField of k with
          | some ov =>
            rw [hbf, hof] at hm
            rcases ih hm hv with h | h
            · exact Or.inl (by rw [lookupPath_obj_cons, hbf]; exact h)
            · exact Or.inr (by rw [lookupPath_obj_cons, hof]; exact h)
          | none =>
            rw [hbf, hof] at hm
            exact Or.inl (by rw [lookupPath_obj_cons, hbf]; exact hm)
        | none =>
          cases hof : lookupField of k with
          | some ov =>
            rw [hbf, hof] at hm
            exact Or.inr (by rw [lookupPath_obj_cons, hof]; exact hm)
          | none =>
            rw [hbf, hof] at hm
            exact absurd hm (by simp)
      · rw [merge_eq_snd (Or.inr (by simpa using hoo))] at hm
        exact Or.inr hm
    · rw [merge_eq_snd (Or.inl (by simpa using hb))] at hm
      exact Or.inr hm

theorem mem_mergeConflictsFields {of bf : List (String × PolicyValue)}
    {k : String} {bv ov : PolicyValue} {rest : List String}
    (hb : lookupField bf k = some bv) (ho : lookupField of k = some ov)
    (h : rest ∈ mergeConflicts bv ov) :
    (k :: rest) ∈ mergeConflictsFields of bf := by
  induction bf with
  | nil => simp [lookupField] at hb
  | cons p tail ih =>
    obtain ⟨k', bv'⟩ := p
    rw [mergeConflictsFields]
    by_cases hk : k' = k
    · subst hk
      rw [lookupField, if_pos rfl] at hb
      obtain rfl : bv' = bv := by injection hb
      apply List.mem_append_left
      rw [ho]
      exact List.mem_map.mpr ⟨rest, h, rfl⟩
    · rw [lookupField, if_neg hk] at hb
      exact List.mem_append_right _ (ih hb)

theorem merge_conflict_core {P : List String} :
    ∀ {b o vb vo : PolicyValue}, lookupPath b P = some vb →
      lookupPath o P = some vo → typeTag vb ≠ typeTag vo →
      lookupPath (merge b o) P = some vo ∧ P ∈ mergeConflicts b o := by
  induction P with
  | nil =>
    intro b o vb vo hb ho hne
    rw [lookupPath_nil] at hb ho
    obtain rfl : b = vb := by injection hb
    obtain rfl : o = vo := by injection ho
    have hnotboth : isObj b = false ∨ isObj o = false := by
      by_cases h1 : isObj b = true
      · by_cases h2 : isObj o = true
        · obtain ⟨bf, rfl⟩ := exists_obj_of_isObj h1
          obtain ⟨of, rfl⟩ := exists_obj_of_isObj h2
          exact absurd rfl hne
        · exact Or.inr (by simpa using h2)
      · exact Or.inl (by simpa using h1)
    refine ⟨?_, ?_⟩
    · rw [merge_eq_snd hnotboth, lookupPath_nil]
    · rw [mergeConflicts_not_both_obj hnotboth, if_neg hne]
      simp
  | cons k rest ih =>
    intro b o vb vo hb ho hne
    obtain ⟨bf, bv, rfl, hbf, hb'⟩ := lookupPath_cons_elim hb
    obtain ⟨of, ov, rfl, hof, ho'⟩ := lookupPath_cons_elim ho
    obtain ⟨hm, hc⟩ := ih hb' ho' hne
    refine ⟨?_, ?_⟩
    · rw [merge_obj_obj, lookupPath_obj_cons, lookupField_mergeObj, hbf, hof]
      exact hm
    · rw [mergeConflicts_obj_obj]
      exact mem_mergeConflictsFields hbf hof hc

theorem sizeOf_mem_fields {k : String} {v : PolicyValue}
    {fs : List (String × PolicyValue)} (h : (k, v) ∈ fs) :
    sizeOf v < 1 + sizeOf fs := by
  have h1 := List.sizeOf_lt_of_mem h
  have h2 : sizeOf (k, v) = 1 + sizeOf k + sizeOf v := rfl
  omega

theorem sizeOf_mem_fieldsT {k : String} {v : TaggedValue}
    {fs : List (String × TaggedValue)} (h : (k, v) ∈ fs) :
    sizeOf v < 1 + sizeOf fs := by
  have h1 := List.sizeOf_lt_of_mem h
  have h2 : sizeOf (k, v) = 1 + sizeOf k + sizeOf v := rfl
  omega

theorem pvInduction (motive : PolicyValue → Prop)
    (h1 : motive .null) (h2 : ∀ b, motive (.bool b))
    (h3 : ∀ n, motive (.num n)) (h4 : ∀ s, motive (.str s))
    (h5 : ∀ xs, motive (.list xs))
    (h6 : ∀ fs, (∀ k v, (k, v) ∈ fs → motive v) → motive (.obj fs)) :
    ∀ v, motive v
  | .null => h1
  | .bool b => h2 b
  | .num n => h3 n
  | .str s => h4 s
  | .list xs => h5 xs
  | .obj fs =>
    h6 fs fun _ v hm =>
      have := sizeOf_mem_fields hm
      pvInduction motive h1 h2 h3 h4 h5 h6 v
termination_by v => sizeOf v
decreasing_by
  have h2 : sizeOf (PolicyValue.obj fs) = 1 + sizeOf fs := by simp
  omega

theorem tvInduction (motive : TaggedValue → Prop)
    (h1 : ∀ tg, motive (.null tg)) (h2 : ∀ b tg, motive (.bool b tg))
    (h3 : ∀ n tg, motive (.num n tg)) (h4 : ∀ s tg, motive (.str s tg))
    (h5 : ∀ xs tg, motive (.list xs tg))
    (h6 : ∀ fs, (∀ k v, (k, v) ∈ fs → motive v) → motive (.obj fs)) :
    ∀ t, motive t
  | .null tg => h1 tg
  | .bool b tg => h2 b tg
  | .num n tg => h3 n tg
  | .str s tg => h4 s tg
  | .list xs tg => h5 xs tg
  | .obj fs =>
    h6 fs fun _ v hm =>
      have := sizeOf_mem_fieldsT hm
      tvInduction motive h1 h2 h3 h4 h5 h6 v
termination_by t => sizeOf t
decreasing_by
  have h2 : sizeOf (TaggedValue.obj fs) = 1 + sizeOf fs := by simp
  omega

/-- Whether a tagged value is an object. -/
def isObjT : TaggedValue → Bool
  | .obj _ => true
  | _ => false

theorem exists_objT_of_isObjT {b : TaggedValue} (h : isObjT b = true) :
    ∃ bf, b = TaggedValue.obj bf := by
  cases b <;> simp [isObjT] at h ⊢

theorem mergeT_obj_obj (bf of : List (String × TaggedValue)) :
    mergeT (.obj bf) (.obj of) =
      .obj (mergeFieldsT of bf ++
        of.filter fun p => (lookupFieldT bf p.1).isNone) := by
  rw [mergeT]

theorem mergeT_eq_snd {b o : TaggedValue}
    (h : isObjT b = false ∨ isObjT o = false) : mergeT b o = o := by
  cases b <;> cases o
  case obj.obj => simp [isObjT] at h
  all_goals simp [mergeT]

theorem untag_obj (fs : List (String × TaggedValue)) :
    untag (.obj fs) = .obj (untagFields fs) := by
  rw [untag]

theorem isObj_untag (t : TaggedValue) : isObj (untag t) = isObjT t := by
  cases t <;> simp [untag, isObj, isObjT]

theorem untagFields_append (l₁ l₂ : List (String × TaggedValue)) :
    untagFields (l₁ ++ l₂) = untagFields l₁ ++ untagFields l₂ := by
  induction l₁ with
  | nil => simp [untagFields]
  | cons p rest ih =>
    obtain ⟨k, v⟩ := p
    simp [untagFields, ih]

theorem lookupField_untagFields (fs : List (String × TaggedValue))
    (k : String) :
    lookupField (untagFields fs) k = (lookupFieldT fs k).map untag := by
  induction fs with
  | nil => simp [untagFields, lookupField, lookupFieldT]
  | cons p rest ih =>
    obtain ⟨k', v⟩ := p
    by_cases hk : k' = k
    · simp [untagFields, lookupField, lookupFieldT, hk]
    · simp [untagFields, lookupField, lookupFieldT, hk, ih]

theorem untagFields_cons (k : String) (v : TaggedValue)
    (rest : List (String × TaggedValue)) :
    untagFields ((k, v) :: rest) = (k, untag v) :: untagFields rest := by
  rw [untagFields]

theorem untagFields_mergeFieldsT {of bf : List (String × TaggedValue)}
    (ih : ∀ k v, (k, v) ∈ bf → ∀ o, untag (mergeT v o) = merge (untag v) (untag o)) :
    untagFields (mergeFieldsT of bf) =
      mergeFields (untagFields of) (untagFields bf) := by
  induction bf with
  | nil => simp [mergeFieldsT, untagFields, mergeFields]
  | cons p rest ihl =>
    obtain ⟨k, bv⟩ := p
    rw [mergeFieldsT, untagFields_cons, untagFields_cons, mergeFields]
    rw [lookupField_untagFields]
    cases hf : lookupFieldT of k with
    | some ov =>
      simp [ih k bv (List.mem_cons_self _ _),
        ihl fun k' v' hm o => ih k' v' (List.mem_cons_of_mem _ hm) o]
    | none =>
      simp [ihl fun k' v' hm o => ih k' v' (List.mem_cons_of_mem _ hm) o]

theorem untagFields_filter (of bf : List (String × TaggedValue)) :
    untagFields (of.filter fun p => (lookupFieldT bf p.1).isNone) =
      (untagFields of).filter
        fun p => (lookupField (untagFields bf) p.1).isNone := by
  induction of with
  | nil => simp [untagFields]
  | cons p rest ih =>
    obtain ⟨k, v⟩ := p
    by_cases hp : (lookupFieldT bf k).isNone
    · rw [List.filter_cons_of_pos (by simpa using hp)]
      rw [untagFields, untagFields]
      rw [List.filter_cons_of_pos
        (by simp [lookupField_untagFields]; simpa using hp)]
      rw [ih]
    · rw [List.filter_cons_of_neg (by simpa using hp)]
      rw [untagFields]
      rw [List.filter_cons_of_neg
        (by simp [lookupField_untagFields]; simpa using hp)]
      rw [ih]

theorem untag_mergeT_not_obj {a : TaggedValue} (h : isObjT a = false)
    (b : TaggedValue) : untag (mergeT a b) = merge (untag a) (untag b) := by
  rw [mergeT_eq_snd (Or.inl h),
    merge_eq_snd (Or.inl (by rw [isObj_untag]; exact h))]

theorem untag_mergeT : ∀ a b : TaggedValue,
    untag (mergeT a b) = merge (untag a) (untag b) := by
  intro a
  induction a using tvInduction with
  | h1 tg => exact fun b => untag_mergeT_not_obj (by rfl) b
  | h2 x tg => exact fun b => untag_mergeT_not_obj (by rfl) b
  | h3 x tg => exact fun b => untag_mergeT_not_obj (by rfl) b
  | h4 x tg => exact fun b => untag_mergeT_not_obj (by rfl) b
  | h5 x tg => exact fun b => untag_mergeT_not_obj (by rfl) b
  | h6 fs ih =>
    intro b
    by_cases hbo : isObjT b = true
    · obtain ⟨of, rfl⟩ := exists_objT_of_isObjT hbo
      rw [mergeT_obj_obj, untag_obj, untag_obj, untag_obj, merge_obj_obj]
      rw [untagFields_append]
      rw [untagFields_mergeFieldsT fun k v hm o => ih k v hm o]
      rw [untagFields_filter]
    · rw [mergeT_eq_snd (Or.inr (by simpa using hbo))]
      rw [merge_eq_snd (Or.inr (by rw [isObj_untag]; simpa using hbo))]

theorem lookupFieldT_mem {fs : List (String × TaggedValue)} {k : String}
    {v : TaggedValue} (h : lookupFieldT fs k = some v) : (k, v) ∈ fs := by
  induction fs with
  | nil => simp [lookupFieldT] at h
  | cons p rest ih =>
    obtain ⟨k', v'⟩ := p
    by_cases hk : k' = k
    · subst hk
      rw [lookupFieldT, if_pos rfl] at h
      obtain rfl : v' = v := by injection h
      exact List.mem_cons_self _ _
    · rw [lookupFieldT, if_neg hk] at h
      exact List.mem_cons_of_mem _ (ih h)

theorem tagAll_obj (tg : String) (fs : List (String × PolicyValue)) :
    tagAll tg (.obj fs) = .obj (tagAllFields tg fs) := by
  rw [tagAll]

theorem tagAllFields_cons (tg k : String) (v : PolicyValue)
    (rest : List (String × PolicyValue)) :
    tagAllFields tg ((k, v) :: rest) =
      (k, tagAll tg v) :: tagAllFields tg rest := by
  rw [tagAllFields]

theorem untagFields_tagAllFields {tg : String}
    {fs : List (String × PolicyValue)}
    (ih : ∀ k v, (k, v) ∈ fs → untag (tagAll tg v) = v) :
    untagFields (tagAllFields tg fs) = fs := by
  induction fs with
  | nil => rw [tagAllFields]; rw [untagFields]
  | cons p rest ihl =>
    obtain ⟨k, v⟩ := p
    rw [tagAllFields_cons, untagFields_cons]
    rw [ih k v (List.mem_cons_self _ _)]
    rw [ihl fun k' v' hm => ih k' v' (List.mem_cons_of_mem _ hm)]

theorem untag_tagAll (tg : String) : ∀ v, untag (tagAll tg v) = v := by
  intro v
  induction v using pvInduction with
  | h1 => rw [tagAll]; rw [untag]
  | h2 b => rw [tagAll]; rw [untag]
  | h3 n => rw [tagAll]; rw [untag]
  | h4 s => rw [tagAll]; rw [untag]
  | h5 xs => rw [tagAll]; rw [untag]
  | h6 fs ih =>
    rw [tagAll_obj, untag_obj]
    rw [untagFields_tagAllFields ih]

theorem provOf_obj (fs : List (String × TaggedValue)) :
    provOf (.obj fs) = provOfFields fs := by
  rw [provOf]

theorem provOfFields_cons (k : String) (v : TaggedValue)
    (rest : List (String × TaggedValue)) :
    provOfFields ((k, v) :: rest) =
      (provOf v).map (fun pr => (k :: pr.1, pr.2)) ++ provOfFields rest := by
  rw [provOfFields]

theorem provOfFields_append (l₁ l₂ : List (String × TaggedValue)) :
    provOfFields (l₁ ++ l₂) = provOfFields l₁ ++ provOfFields l₂ := by
  induction l₁ with
  | nil => rw [provOfFields]; simp
  | cons p rest ih =>
    obtain ⟨k, v⟩ := p
    rw [List.cons_append, provOfFields_cons, provOfFields_cons, ih]
    rw [List.append_assoc]

theorem mem_provTags_fields {fs : List (String × TaggedValue)} {x : String}
    (h : x ∈ (provOfFields fs).map Prod.snd) :
    ∃ k v, (k, v) ∈ fs ∧ x ∈ provTags v := by
  induction fs with
  | nil => rw [provOfFields] at h; simp at h
  | cons p rest ih =>
    obtain ⟨k, v⟩ := p
    rw [provOfFields_cons] at h
    rw [List.map_append, List.map_map] at h
    rcases List.mem_append.mp h with h1 | h2
    · refine ⟨k, v, List.mem_cons_self _ _, ?_⟩
      rw [provTags]
      simpa using h1
    · obtain ⟨k', v', hm, hx⟩ := ih h2
      exact ⟨k', v', List.mem_cons_of_mem _ hm, hx⟩

theorem provTags_obj_mem {fs : List (String × TaggedValue)} {k : String}
    {v : TaggedValue} (hm : (k, v) ∈ fs) {x : String}
    (h : x ∈ provTags v) : x ∈ provTags (.obj fs) := by
  induction fs with
  | nil => simp at hm
  | cons p rest ih =>
    obtain ⟨k', v'⟩ := p
    rw [provTags, provOf_obj, provOfFields_cons, List.map_append]
    rcases List.mem_cons.mp hm with he | hm'
    · obtain ⟨rfl, rfl⟩ : k' = k ∧ v' = v := by
        constructor <;> injection he <;> simp_all
      apply List.mem_append_left
      rw [List.map_map]
      rw [provTags] at h
      simpa using h
    · apply List.mem_append_right
      have := ih hm'
      rw [provTags, provOf_obj] at this
      exact this

theorem mem_tagAllFields {tg : String} {fs : List (String × PolicyValue)}
    {k : String} {w : TaggedValue} (h : (k, w) ∈ tagAllFields tg fs) :
    ∃ v, (k, v) ∈ fs ∧ w = tagAll tg v := by
  induction fs with
  | nil => rw [tagAllFields] at h; simp at h
  | cons p rest ih =>
    obtain ⟨k', v'⟩ := p
    rw [tagAllFields_cons] at h
    rcases List.mem_cons.mp h with he | hm
    · obtain ⟨rfl, rfl⟩ : k' = k ∧ tagAll tg v' = w := by
        constructor <;> injection he <;> simp_all
      exact ⟨v', List.mem_cons_self _ _, rfl⟩
    · obtain ⟨v, hv, rfl⟩ := ih hm
      exact ⟨v, List.mem_cons_of_mem _ hv, rfl⟩

theorem provTags_tagAll {tg : String} : ∀ v x,
    x ∈ provTags (tagAll tg v) → x = tg := by
  intro v
  induction v using pvInduction with
  | h1 => intro x h; rw [tagAll] at h; rw [provTags, provOf] at h; simpa using h
  | h2 b => intro x h; rw [tagAll] at h; rw [provTags, provOf] at h; simpa using h
  | h3 n => intro x h; rw [tagAll] at h; rw [provTags, provOf] at h; simpa using h
  | h4 s => intro x h; rw [tagAll] at h; rw [provTags, provOf] at h; simpa using h
  | h5 xs => intro x h; rw [tagAll] at h; rw [provTags, provOf] at h; simpa using h
  | h6 fs ih =>
    intro x h
    rw [tagAll_obj, provTags, provOf_obj] at h
    obtain ⟨k, w, hm, hx⟩ := mem_provTags_fields h
    obtain ⟨v, hv, rfl⟩ := mem_tagAllFields hm
    exact ih k v hv x hx

theorem mem_mergeFieldsT {of af : List (String × TaggedValue)} {k : String}
    {w : TaggedValue} (h : (k, w) ∈ mergeFieldsT of af) :
    ∃ bv, (k, bv) ∈ af ∧
      ((∃ ov, lookupFieldT of k = some ov ∧ w = mergeT bv ov) ∨
        (lookupFieldT of k = none ∧ w = bv)) := by
  induction af with
  | nil => rw [mergeFieldsT] at h; simp at h
  | cons p rest ih =>
    obtain ⟨k', bv'⟩ := p
    rw [mergeFieldsT] at h
    rcases List.mem_cons.mp h with he | hm
    · have hk : k = k' := congrArg Prod.fst he
      subst hk
      have hw : w = (match lookupFieldT of k with
                     | some ov => mergeT bv' ov
                     | none => bv') := congrArg Prod.snd he
      refine ⟨bv', List.mem_cons_self _ _, ?_⟩
      cases hf : lookupFieldT of k with
      | some ov =>
        rw [hf] at hw
        exact Or.inl ⟨ov, rfl, hw⟩
      | none =>
        rw [hf] at hw
        exact Or.inr ⟨rfl, hw⟩
    · obtain ⟨bv, hbv, hc⟩ := ih hm
      exact ⟨bv, List.mem_cons_of_mem _ hbv, hc⟩

theorem provTags_mergeT : ∀ a b x, x ∈ provTags (mergeT a b) →
    x ∈ provTags a ∨ x ∈ provTags b := by
  intro a
  induction a using tvInduction with
  | h1 tg => intro b x h; rw [mergeT_eq_snd (Or.inl (by rfl))] at h; exact Or.inr h
  | h2 v tg => intro b x h; rw [mergeT_eq_snd (Or.inl (by rfl))] at h; exact Or.inr h
  | h3 v tg => intro b x h; rw [mergeT_eq_snd (Or.inl (by rfl))] at h; exact Or.inr h
  | h4 v tg => intro b x h; rw [mergeT_eq_snd (Or.inl (by rfl))] at h; exact Or.inr h
  | h5 v tg => intro b x h; rw [mergeT_eq_snd (Or.inl (by rfl))] at h; exact Or.inr h
  | h6 af ih =>
    intro b x h
    by_cases hbo : isObjT b = true
    · obtain ⟨of, rfl⟩ := exists_objT_of_isObjT hbo
      rw [mergeT_obj_obj, provTags, provOf_obj, provOfFields_append,
        List.map_append] at h
      rcases List.mem_append.mp h with h1 | h2
      · obtain ⟨k, w, hm, hx⟩ := mem_provTags_fields h1
        obtain ⟨bv, hbv, hc⟩ := mem_mergeFieldsT hm
        rcases hc with ⟨ov, hov, rfl⟩ | ⟨hnone, rfl⟩
        · rcases ih k bv hbv ov x hx with hl | hr
          · exact Or.inl (provTags_obj_mem hbv hl)
          · exact Or.inr (provTags_obj_mem (lookupFieldT_mem hov) hr)
        · exact Or.inl (provTags_obj_mem hbv hx)
      · obtain ⟨k, w, hm, hx⟩ := mem_provTags_fields h2
        exact Or.inr (provTags_obj_mem (List.mem_of_mem_filter hm) hx)
    · rw [mergeT_eq_snd (Or.inr (by simpa using hbo))] at h
      exact Or.inr h

theorem foldl_tier_origin (P : List String) (v : PolicyValue) :
    ∀ (l : List PolicyInstance) (acc : Option TaggedValue) (t : TaggedValue),
      l.foldl (fun acc i =>
        match acc with
        | none => some (tagAll i.name i.value)
        | some a => some (mergeT (tagAll i.name i.value) a)) acc = some t →
      lookupPath (untag t) P = some v → isObj v = false →
      (∃ i ∈ l, lookupPath i.value P = some v) ∨
        (∃ a, acc = some a ∧ lookupPath (untag a) P = some v) := by
  intro l
  induction l with
  | nil =>
    intro acc t hf hl hv
    rw [List.foldl_nil] at hf
    exact Or.inr ⟨t, hf, hl⟩
  | cons i rest ih =>
    intro acc t hf hl hv
    rw [List.foldl_cons] at hf
    rcases ih _ t hf hl hv with ⟨j, hj, hjl⟩ | ⟨a, ha, hal⟩
    · exact Or.inl ⟨j, List.mem_cons_of_mem _ hj, hjl⟩
    · cases acc with
      | none =>
        obtain rfl : tagAll i.name i.value = a := by injection ha
        rw [untag_tagAll] at hal
        exact Or.inl ⟨i, List.mem_cons_self _ _, hal⟩
      | some a0 =>
        obtain rfl : mergeT (tagAll i.name i.value) a0 = a := by injection ha
        rw [untag_mergeT, untag_tagAll] at hal
        rcases lookupPath_merge_origin hal hv with h | h
        · exact Or.inl ⟨i, List.mem_cons_self _ _, h⟩
        · exact Or.inr ⟨a0, rfl, h⟩

theorem foldl_tier_tags :
    ∀ (l : List PolicyInstance) (acc : Option TaggedValue) (t : TaggedValue),
      l.foldl (fun acc i =>
        match acc with
        | none => some (tagAll i.name i.value)
        | some a => some (mergeT (tagAll i.name i.value) a)) acc = some t →
      ∀ x ∈ provTags t,
        (∃ i ∈ l, x = i.name) ∨ (∃ a, acc = some a ∧ x ∈ provTags a) := by
  intro l
  induction l with
  | nil =>
    intro acc t hf x hx
    rw [List.foldl_nil] at hf
    exact Or.inr ⟨t, hf, hx⟩
  | cons i rest ih =>
    intro acc t hf x hx
    rw [List.foldl_cons] at hf
    rcases ih _ t hf x hx with ⟨j, hj, hje⟩ | ⟨a, ha, hat⟩
    · exact Or.inl ⟨j, List.mem_cons_of_mem _ hj, hje⟩
    · cases acc with
      | none =>
        obtain rfl : tagAll i.name i.value = a := by injection ha
        exact Or.inl ⟨i, List.mem_cons_self _ _, provTags_tagAll _ x hat⟩
      | some a0 =>
        obtain rfl : mergeT (tagAll i.name i.value) a0 = a := by injection ha
        rcases provTags_mergeT _ _ x hat with h | h
        · exact Or.inl ⟨i, List.mem_cons_self _ _, provTags_tagAll _ x h⟩
        · exact Or.inr ⟨a0, rfl, h⟩

theorem tierMergedT_origin {snap : GraphSnapshot} {gk : GroupKind}
    {ref : ResourceRef} {t : TaggedValue} {P : List String} {v : PolicyValue}
    (ht : tierMergedT snap gk ref = some t)
    (hl : lookupPath (untag t) P = some v) (hv : isObj v = false) :
    ∃ i ∈ policiesTargeting snap gk ref, lookupPath i.value P = some v := by
  rw [tierMergedT] at ht
  rcases foldl_tier_origin P v _ none t ht hl hv with h | ⟨a, ha, _⟩
  · exact h
  · exact absurd ha (by simp)

theorem tierMergedT_tags {snap : GraphSnapshot} {gk : GroupKind}
    {ref : ResourceRef} {t : TaggedValue}
    (ht : tierMergedT snap gk ref = some t) :
    ∀ x ∈ provTags t, ∃ i ∈ policiesTargeting snap gk ref, x = i.name := by
  intro x hx
  rw [tierMergedT] at ht
  rcases foldl_tier_tags _ none t ht x hx with h | ⟨a, ha, _⟩
  · exact h
  · exact absurd ha (by simp)

theorem effectiveTagged_eq (snap : GraphSnapshot) (target : ResourceRef)
    (gk : GroupKind) :
    effectiveTagged snap target gk =
      mergeOptT
        (((if inheritableKind snap gk then (ancestorChain snap target).1
           else []).map fun ref => tierMergedT snap gk ref).foldr
          (fun tv acc => mergeOptT acc tv) none)
        (tierMergedT snap gk target) := by
  rw [effectiveTagged]
  rw [List.map_cons, List.foldr_cons]

theorem ancestorChainAux_invariant (parent : ResourceRef → Option ResourceRef) :
    ∀ (fuel : Nat) (cur : ResourceRef) (visited : List ResourceRef),
      (∀ x ∈ (ancestorChainAux parent fuel cur visited).1, x ∉ visited) ∧
        (ancestorChainAux parent fuel cur visited).1.Nodup := by
  intro fuel
  induction fuel with
  | zero => intro cur visited; simp [ancestorChainAux]
  | succ fuel ih =>
    intro cur visited
    cases hp : parent cur with
    | none => simp [ancestorChainAux, hp]
    | some p =>
      by_cases hv : p ∈ visited
      · simp [ancestorChainAux, hp, hv]
      · obtain ⟨h1, h2⟩ := ih p (p :: visited)
        refine ⟨?_, ?_⟩
        · intro x hx
          simp only [ancestorChainAux, hp, if_neg hv] at hx
          rcases List.mem_cons.mp hx with rfl | hx'
          · exact hv
          · exact fun hc => h1 x hx' (List.mem_cons_of_mem _ hc)
        · simp only [ancestorChainAux, hp, if_neg hv]
          refine List.Nodup.cons ?_ h2
          intro hc
          exact h1 p hc (List.mem_cons_self _ _)

theorem ancestorChainAux_length (parent : ResourceRef → Option ResourceRef) :
    ∀ (fuel : Nat) (cur : ResourceRef) (visited : List ResourceRef),
      (ancestorChainAux parent fuel cur visited).1.length ≤ fuel := by
  intro fuel
  induction fuel with
  | zero => intro cur visited; simp [ancestorChainAux]
  | succ fuel ih =>
    intro cur visited
    cases hp : parent cur with
    | none => simp [ancestorChainAux, hp]
    | some p =>
      by_cases hv : p ∈ visited
      · simp [ancestorChainAux, hp, hv]
      · simp only [ancestorChainAux, hp, if_neg hv, List.length_cons]
        exact Nat.succ_le_succ (ih p (p :: visited))

theorem parentIter_front {parent : ResourceRef → Option ResourceRef}
    {cur p : ResourceRef} (h : parent cur = some p) :
    ∀ n, parentIter parent cur (n + 1) = parentIter parent p n := by
  intro n
  induction n with
  | zero => simp [parentIter, h]
  | succ n ih => rw [parentIter, ih]; rw [parentIter]

theorem parentIter_front_none {parent : ResourceRef → Option ResourceRef}
    {cur : ResourceRef} (h : parent cur = none) :
    ∀ n, parentIter parent cur (n + 1) = none := by
  intro n
  induction n with
  | zero => simp [parentIter, h]
  | succ n ih => rw [parentIter, ih]; rfl

theorem ancestorChainAux_iter (parent : ResourceRef → Option ResourceRef) :
    ∀ (fuel : Nat) (cur : ResourceRef) (visited : List ResourceRef)
      (j : Nat) (x : ResourceRef), 1 ≤ j → j ≤ fuel →
      parentIter parent cur j = some x →
      Warning.cycleDetected ∈ (ancestorChainAux parent fuel cur visited).2 ∨
        (ancestorChainAux parent fuel cur visited).1[j - 1]? = some x := by
  intro fuel
  induction fuel with
  | zero => intro cur visited j x h1 h2 _; omega
  | succ fuel ih =>
    intro cur visited j x h1 h2 hit
    cases hp : parent cur with
    | none =>
      obtain ⟨j', rfl⟩ : ∃ j', j = j' + 1 := ⟨j - 1, by omega⟩
      rw [parentIter_front_none hp] at hit
      exact absurd hit (by simp)
    | some p =>
      by_cases hv : p ∈ visited
      · simp [ancestorChainAux, hp, hv]
      · obtain ⟨j', rfl⟩ : ∃ j', j = j' + 1 := ⟨j - 1, by omega⟩
        rw [parentIter_front hp] at hit
        simp only [ancestorChainAux, hp, if_neg hv]
        rcases Nat.eq_zero_or_pos j' with rfl | hj'
        · rw [parentIter] at hit
          obtain rfl : p = x := by injection hit
          simp
        · rcases ih p (p :: visited) j' x hj' (by omega) hit with hw | hg
          · exact Or.inl hw
          · refine Or.inr ?_
            have : j' + 1 - 1 = (j' - 1) + 1 := by omega
            rw [this]
            rw [List.getElem?_cons_succ]
            exact hg

theorem find?_eq_of_perm {α : Type} {p : α → Bool} {l₁ l₂ : List α}
    (hperm : l₁.Perm l₂)
    (huniq : ∀ a ∈ l₁, ∀ b ∈ l₁, p a = true → p b = true → a = b) :
    l₁.find? p = l₂.find? p := by
  cases h1 : l₁.find? p with
  | none =>
    cases h2 : l₂.find? p with
    | none => rfl
    | some b =>
      have hb := List.find?_some h2
      have hmem : b ∈ l₁ := hperm.mem_iff.mpr (List.mem_of_find?_eq_some h2)
      have := List.find?_eq_none.mp h1 b hmem
      exact absurd hb (by simpa using this)
  | some a =>
    have hpa := List.find?_some h1
    have hma := List.mem_of_find?_eq_some h1
    cases h2 : l₂.find? p with
    | none =>
      have := List.find?_eq_none.mp h2 a (hperm.mem_iff.mp hma)
      exact absurd hpa (by simpa using this)
    | some b =>
      have hpb := List.find?_some h2
      have hmb : b ∈ l₁ := hperm.mem_iff.mpr (List.mem_of_find?_eq_some h2)
      rw [huniq a hma b hmb hpa hpb]

theorem sorted_perm_eq {α : Type} {r : α → α → Prop} :
    ∀ {l₁ l₂ : List α}, l₁.Perm l₂ → l₁.Sorted r → l₂.Sorted r →
      (∀ a ∈ l₁, ∀ b ∈ l₁, r a b → r b a → a = b) → l₁ = l₂ := by
  intro l₁
  induction l₁ with
  | nil =>
    intro l₂ hp _ _ _
    exact (List.Perm.eq_nil hp.symm).symm
  | cons a t₁ ih =>
    intro l₂ hp hs₁ hs₂ hanti
    cases l₂ with
    | nil => exact absurd (List.Perm.eq_nil hp) (by simp)
    | cons b t₂ =>
      by_cases hab : a = b
      · subst hab
        have ht : t₁.Perm t₂ := hp.cons_inv
        rw [ih ht hs₁.of_cons hs₂.of_cons fun x hx y hy =>
          hanti x (List.mem_cons_of_mem _ hx) y (List.mem_cons_of_mem _ hy)]
      · have ha2 : a ∈ b :: t₂ := hp.mem_iff.mp (List.mem_cons_self _ _)
        have ha2' : a ∈ t₂ := by
          rcases List.mem_cons.mp ha2 with h | h
          · exact absurd h hab
          · exact h
        have hb1 : b ∈ a :: t₁ := hp.mem_iff.mpr (List.mem_cons_self _ _)
        have hb1' : b ∈ t₁ := by
          rcases List.mem_cons.mp hb1 with h | h
          · exact absurd h.symm hab
          · exact h
        have hrab : r a b := (List.sorted_cons.mp hs₁).1 b hb1'
        have hrba : r b a := (List.sorted_cons.mp hs₂).1 a ha2'
        exact absurd
          (hanti a (List.mem_cons_self _ _) b (List.mem_cons_of_mem _ hb1')
            hrab hrba) hab

theorem crdFor_perm {snap₁ snap₂ : GraphSnapshot}
    (h : snap₁.crds.Perm snap₂.crds)
    (huniq : ∀ c ∈ snap₁.crds, ∀ d ∈ snap₁.crds,
      c.groupKind = d.groupKind → c = d) :
    ∀ gk, crdFor snap₁ gk = crdFor snap₂ gk := by
  intro gk
  rw [crdFor, crdFor]
  apply find?_eq_of_perm h
  intro a ha b hb hpa hpb
  apply huniq a ha b hb
  have h1 : a.groupKind = gk := of_decide_eq_true hpa
  have h2 : b.groupKind = gk := of_decide_eq_true hpb
  rw [h1, h2]

theorem instRel_antisymm_names {a b : PolicyInstance}
    (h1 : instRel a b) (h2 : instRel b a) : a.name = b.name := by
  unfold instRel at h1 h2
  rcases h1 with h1 | ⟨h1, h1'⟩ <;> rcases h2 with h2 | ⟨h2, h2'⟩ <;>
    first
    | omega
    | exact le_antisymm h1' h2'

theorem policiesTargeting_perm {snap₁ snap₂ : GraphSnapshot}
    (hinst : snap₁.instances.Perm snap₂.instances)
    (hcrd : ∀ gk, crdFor snap₁ gk = crdFor snap₂ gk)
    (hnames : ∀ i ∈ snap₁.instances, ∀ j ∈ snap₁.instances,
      i.name = j.name → i = j) :
    ∀ gk ref, policiesTargeting snap₁ gk ref = policiesTargeting snap₂ gk ref := by
  intro gk ref
  rw [policiesTargeting, policiesTargeting]
  have hpred : (fun i => instanceValid snap₁ i && decide (i.groupKind = gk) &&
      decide (i.targetRef = ref)) =
      fun i => instanceValid snap₂ i && decide (i.groupKind = gk) &&
        decide (i.targetRef = ref) := by
    funext i
    rw [instanceValid, instanceValid, hcrd i.groupKind]
  rw [hpred]
  have hfp := hinst.filter (fun i => instanceValid snap₂ i &&
    decide (i.groupKind = gk) && decide (i.targetRef = ref))
  apply sorted_perm_eq
    ((List.perm_insertionSort instRel _).trans
      (hfp.trans (List.perm_insertionSort instRel _).symm))
    (List.sorted_insertionSort instRel _)
    (List.sorted_insertionSort instRel _)
  intro a ha b hb hr1 hr2
  have ha' : a ∈ snap₁.instances :=
    List.mem_of_mem_filter ((List.perm_insertionSort instRel _).mem_iff.mp ha)
  have hb' : b ∈ snap₁.instances :=
    List.mem_of_mem_filter ((List.perm_insertionSort instRel _).mem_iff.mp hb)
  exact hnames a ha' b hb' (instRel_antisymm_names hr1 hr2)

theorem computeEffectivePolicy_def (snap : GraphSnapshot)
    (target : ResourceRef) (gk : GroupKind) :
    computeEffectivePolicy snap target gk =
      ({ value := ((effectiveTagged snap target gk).map untag).getD (.obj []),
         provenance := ((effectiveTagged snap target gk).map provOf).getD [] },
       (ancestorChain snap target).2) := rfl

theorem effective_value_from_direct {snap : GraphSnapshot}
    {target : ResourceRef} {gk : GroupKind} {d : TaggedValue}
    {P : List String} {v : PolicyValue}
    (hd : tierMergedT snap gk target = some d)
    (hv : lookupPath (untag d) P = some v) (hno : isObj v = false) :
    lookupPath (computeEffectivePolicy snap target gk).1.value P = some v := by
  rw [computeEffectivePolicy_def]
  show lookupPath (((effectiveTagged snap target gk).map untag).getD (.obj []))
    P = some v
  rw [effectiveTagged_eq, hd]
  cases hrest : ((if inheritableKind snap gk then (ancestorChain snap target).1
      else []).map fun ref => tierMergedT snap gk ref).foldr
      (fun tv acc => mergeOptT acc tv) none with
  | none =>
    simp only [mergeOptT, Option.map_some', Option.getD_some]
    exact hv
  | some r =>
    simp only [mergeOptT, Option.map_some', Option.getD_some]
    rw [untag_mergeT]
    exact lookupPath_merge_override hv hno

theorem isObj_false_of_scalar {v : PolicyValue}
    (h : isScalarOrNull v = true) : isObj v = false := by
  cases v <;> simp [isScalarOrNull, isObj] at h ⊢

/-- C1: Direct policies (target reference exactly the target resource)
always outrank inherited policies on the same field path.  First, if the
pre-merged Direct tier holds a leaf value at a path, the effective
policy holds exactly that value there, and it is some Direct policy
instance's value at that path — never an inherited one's.  Second, in
the single-Direct-policy case: whenever the one Direct policy sets a
leaf at a path, the effective policy's value there is that Direct
policy's value. -/
theorem claim1_direct_policy_precedence (snap : GraphSnapshot)
    (target : ResourceRef) (gk : GroupKind) :
    (∀ (d : TaggedValue) (P : List String) (v : PolicyValue),
      tierMergedT snap gk target = some d →
      lookupPath (untag d) P = some v → isObj v = false →
      lookupPath (computeEffectivePolicy snap target gk).1.value P = some v ∧
        ∃ i ∈ policiesTargeting snap gk target,
          lookupPath i.value P = some v) ∧
    (∀ (i : PolicyInstance) (P : List String) (v : PolicyValue),
      policiesTargeting snap gk target = [i] →
      lookupPath i.value P = some v → isObj v = false →
      lookupPath (computeEffectivePolicy snap target gk).1.value P = some v) := by
  constructor
  · intro d P v hd hv hno
    exact ⟨effective_value_from_direct hd hv hno, tierMergedT_origin hd hv hno⟩
  · intro i P v hsing hv hno
    have hd : tierMergedT snap gk target = some (tagAll i.name i.value) := by
      rw [tierMergedT, hsing]
      rw [List.foldl_cons, List.foldl_nil]
    refine effective_value_from_direct hd ?_ hno
    rw [untag_tagAll]
    exact hv

/-- C2: the structural merge semantics.  A scalar or Null held by
`override` at a path survives to the result; two objects merge
recursively field by field, a field present in only one side being
carried through unchanged; an array held by `override` at a path
replaces `base`'s value there wholesale. -/
theorem claim2_merge_structural_semantics :
    (∀ (b o : PolicyValue) (P : List String) (v : PolicyValue),
      lookupPath o P = some v → isScalarOrNull v = true →
      lookupPath (merge b o) P = some v) ∧
    (∀ (bf of : List (String × PolicyValue)) (k : String)
        (bv ov : PolicyValue),
      lookupField bf k = some bv → lookupField of k = some ov →
      lookupPath (merge (.obj bf) (.obj of)) [k] = some (merge bv ov)) ∧
    (∀ (bf of : List (String × PolicyValue)) (k : String) (bv : PolicyValue),
      lookupField bf k = some bv → lookupField of k = none →
      lookupPath (merge (.obj bf) (.obj of)) [k] = some bv) ∧
    (∀ (bf of : List (String × PolicyValue)) (k : String) (ov : PolicyValue),
      lookupField bf k = none → lookupField of k = some ov →
      lookupPath (merge (.obj bf) (.obj of)) [k] = some ov) ∧
    (∀ (b o : PolicyValue) (P : List String) (xs : List PolicyValue),
      lookupPath o P = some (.list xs) →
      lookupPath (merge b o) P = some (.list xs)) := by
  refine ⟨?_, ?_, ?_, ?_, ?_⟩
  · intro b o P v ho hs
    exact lookupPath_merge_override ho (isObj_false_of_scalar hs)
  · intro bf of k bv ov hb ho
    rw [merge_obj_obj, lookupPath_obj_cons, lookupField_mergeObj, hb, ho]
    exact lookupPath_nil _
  · intro bf of k bv hb ho
    rw [merge_obj_obj, lookupPath_obj_cons, lookupField_mergeObj, hb, ho]
    exact lookupPath_nil _
  · intro bf of k ov hb ho
    rw [merge_obj_obj, lookupPath_obj_cons, lookupField_mergeObj, hb, ho]
    exact lookupPath_nil _
  · intro b o P xs ho
    exact lookupPath_merge_override ho rfl

/-- C6: a type mismatch between base and override at a field path is a
MergeConflict: the merge still yields a value (it never aborts), the
result at that path is `override`'s value, and the path is recorded
among the merge's conflict diagnostics. -/
theorem claim6_merge_conflict_override_wins (b o : PolicyValue)
    (P : List String) (vb vo : PolicyValue)
    (hb : lookupPath b P = some vb) (ho : lookupPath o P = some vo)
    (hne : typeTag vb ≠ typeTag vo) :
    lookupPath (merge b o) P = some vo ∧ P ∈ mergeConflicts b o :=
  merge_conflict_core hb ho hne

/-- C3: determinism under permutation.  Two snapshots that agree up to
the order in which PolicyInstances and PolicyCRDs are listed (with the
same parent edges, instance names unique, and CRD group+kinds unique —
duplicate CRD registration is an error) produce identical
EffectivePolicy values, provenance, and warnings for every target and
policy kind. -/
theorem claim3_permutation_determinism (snap₁ snap₂ : GraphSnapshot)
    (target : ResourceRef) (gk : GroupKind)
    (hinst : snap₁.instances.Perm snap₂.instances)
    (hcrds : snap₁.crds.Perm snap₂.crds)
    (hpar : snap₁.parent = snap₂.parent)
    (hnames : ∀ i ∈ snap₁.instances, ∀ j ∈ snap₁.instances,
      i.name = j.name → i = j)
    (hkinds : ∀ c ∈ snap₁.crds, ∀ d ∈ snap₁.crds,
      c.groupKind = d.groupKind → c = d) :
    computeEffectivePolicy snap₁ target gk =
      computeEffectivePolicy snap₂ target gk := by
  have hcrd := crdFor_perm hcrds hkinds
  have hpt := policiesTargeting_perm hinst hcrd hnames
  have htier : (fun ref => tierMergedT snap₁ gk ref) =
      fun ref => tierMergedT snap₂ gk ref := by
    funext ref
    rw [tierMergedT, tierMergedT, hpt gk ref]
  have hchain : ancestorChain snap₁ target = ancestorChain snap₂ target := by
    rw [ancestorChain, ancestorChain, hpar]
  have hinh : inheritableKind snap₁ gk = inheritableKind snap₂ gk := by
    rw [inheritableKind, inheritableKind, hcrd gk]
  have heff : effectiveTagged snap₁ target gk =
      effectiveTagged snap₂ target gk := by
    rw [effectiveTagged_eq, effectiveTagged_eq, hchain, hinh, htier]
    rw [show tierMergedT snap₁ gk target = tierMergedT snap₂ gk target from
      congrFun htier target]
  rw [computeEffectivePolicy_def, computeEffectivePolicy_def, heff, hchain]

/-- C4: a DirectOnly policy kind never inherits.  When the registered
CRD of the requested kind is DirectOnly-scoped, the effective policy of
any target is identical to the one computed on a snapshot with all
parent edges removed (ancestors contribute nothing), and every
provenance entry names a Direct policy instance of the target itself. -/
theorem claim4_directonly_never_propagates (snap : GraphSnapshot)
    (target : ResourceRef) (gk : GroupKind) (crd : PolicyCRD)
    (hc : crdFor snap gk = some crd)
    (hscope : crd.inheritanceScope = InheritanceScope.directOnly) :
    (computeEffectivePolicy snap target gk).1 =
      (computeEffectivePolicy { snap with parent := fun _ => none }
        target gk).1 ∧
    ∀ pr ∈ (computeEffectivePolicy snap target gk).1.provenance,
      ∃ i ∈ policiesTargeting snap gk target, pr.2 = i.name := by
  have hcrd2 : crdFor { snap with parent := fun _ => none } gk =
      crdFor snap gk := rfl
  have hinh : inheritableKind snap gk = false := by
    rw [inheritableKind, hc]
    simp [hscope]
  have hinh2 : inheritableKind { snap with parent := fun _ => none } gk =
      false := by
    rw [inheritableKind, hcrd2, hc]
    simp [hscope]
  have heff : effectiveTagged snap target gk = tierMergedT snap gk target := by
    rw [effectiveTagged_eq, hinh]
    simp [mergeOptT]
  have heff2 : effectiveTagged { snap with parent := fun _ => none }
      target gk = tierMergedT snap gk target := by
    rw [effectiveTagged_eq, hinh2]
    simp [mergeOptT]
    rfl
  constructor
  · rw [computeEffectivePolicy_def, computeEffectivePolicy_def, heff, heff2]
  · intro pr hpr
    rw [computeEffectivePolicy_def] at hpr
    simp only at hpr
    rw [heff] at hpr
    cases ht : tierMergedT snap gk target with
    | none =>
      rw [ht] at hpr
      simp at hpr
    | some t =>
      rw [ht] at hpr
      simp only [Option.map_some', Option.getD_some] at hpr
      have hmem : pr.2 ∈ provTags t := by
        rw [provTags]
        exact List.mem_map_of_mem Prod.snd hpr
      obtain ⟨i, hi, he⟩ := tierMergedT_tags ht pr.2 hmem
      exact ⟨i, hi, he⟩

/-- C5: ancestor chain resolution is total, acyclic and bounded.  For
every snapshot (including adversarial cyclic ones) the chain never
revisits a resource (the target included), its length is bounded by the
fixed hierarchy depth 4, and whenever the true parent iteration repeats
a resource within the depth bound, a CycleDetected warning is
emitted. -/
theorem claim5_chain_bounded_acyclic (snap : GraphSnapshot)
    (target : ResourceRef) :
    (target :: (ancestorChain snap target).1).Nodup ∧
    (ancestorChain snap target).1.length ≤ maxHierarchyDepth ∧
    maxHierarchyDepth = 4 ∧
    ∀ (i j : Nat) (x : ResourceRef), i < j → j ≤ maxHierarchyDepth →
      parentIter snap.parent target i = some x →
      parentIter snap.parent target j = some x →
      Warning.cycleDetected ∈ (ancestorChain snap target).2 := by
  obtain ⟨hvis, hnd⟩ :=
    ancestorChainAux_invariant snap.parent maxHierarchyDepth target [target]
  refine ⟨?_, ancestorChainAux_length _ _ _ _, rfl, ?_⟩
  · refine List.Nodup.cons ?_ hnd
    intro hc
    exact hvis target hc (by simp)
  · intro i j x hij hj hi hjx
    by_contra hw
    have hj1 : 1 ≤ j := by omega
    rcases ancestorChainAux_iter snap.parent maxHierarchyDepth target
      [target] j x hj1 hj hjx with h | hgj
    · exact hw h
    · rcases Nat.eq_zero_or_pos i with rfl | hi1
      · rw [parentIter] at hi
        obtain rfl : target = x := by injection hi
        have hxmem : target ∈ (ancestorChain snap target).1 :=
          List.getElem?_mem hgj
        exact hvis target hxmem (by simp)
      · rcases ancestorChainAux_iter snap.parent maxHierarchyDepth target
          [target] i x hi1 (by omega) hi with h | hgi
        · exact hw h
        · have hlen : i - 1 < (ancestorChain snap target).1.length := by
            obtain ⟨hl, _⟩ := List.getElem?_eq_some_iff.mp hgi
            exact hl
          have := List.getElem?_inj hlen hnd (hgi.trans hgj.symm)
          omega

/-- C7 counterexample world: flags read fine, the policy map is empty,
every fetch succeeds. -/
def wPolicyMissing : CmdWorld where
  getStringErr := false
  getBoolErr := false
  nsFlag := none
  allNsFlag := false
  getPolicy := fun _ => none
  allPolicies := []
  allPolicyCRDs := []
  listHTTPRoutes := fun _ => .ok []
  getHTTPRoute := fun _ _ => .error "the server could not find the requested resource"
  listGateways := fun _ => .ok []
  getGateway := fun _ _ => .error "the server could not find the requested resource"
  listGatewayClasses := .ok []
  getGatewayClass := fun _ => .error "the server could not find the requested resource"
  listBackends := fun _ _ => .ok []
  getBackend := fun _ _ _ => .error "the server could not find the requested resource"

/-- C7 counterexample: `describe policy NAME` for a policy absent from
the policy map does not exit with code 1 — it prints an empty describe
view and completes with exit code 0, contradicting the claim that
describing a missing named resource never completes with exit code 0. -/
theorem claim7_counterexample :
    runDescribe wPolicyMissing "policy" (some "missing") =
      CmdResult.done [] [] ∧
    exitCode (runDescribe wPolicyMissing "policy" (some "missing")) = 0 := by
  constructor
  · rfl
  · rfl

/-- C7 (amended): every flag-read error and every fetch error — the
httproute, gateway, gatewayclass and backend lookups, named or listed —
writes the error to the error stream and exits with code 1; but the
describe-policy-by-name path treats an absent policy as an empty result
and completes normally with exit code 0. -/
theorem claim7_error_exit_semantics (w : CmdWorld) :
    (w.getStringErr = true →
      (∀ (k : String) (n? : Option String),
        runDescribe w k n? = .exit1 "failed to read flag \"namespace\"") ∧
      ∀ k : String, runGet w k = .exit1 "failed to read flag \"namespace\"") ∧
    (w.getStringErr = false → w.getBoolErr = true →
      (∀ (k : String) (n? : Option String),
        runDescribe w k n? = .exit1 "failed to read flag \"all-namespaces\"") ∧
      ∀ k : String,
        runGet w k = .exit1 "failed to read flag \"all-namespaces\"") ∧
    (w.getStringErr = false → w.getBoolErr = false →
      (∀ e, w.listHTTPRoutes (computedNs w) = .error e →
        exitCode (runDescribe w "httproutes" none) = 1 ∧
        exitCode (runGet w "httproutes") = 1) ∧
      (∀ n e, w.getHTTPRoute (computedNs w) n = .error e →
        exitCode (runDescribe w "httproute" (some n)) = 1) ∧
      (∀ e, w.listGateways (computedNs w) = .error e →
        exitCode (runDescribe w "gateways" none) = 1) ∧
      (∀ n e, w.getGateway (computedNs w) n = .error e →
        exitCode (runDescribe w "gateway" (some n)) = 1) ∧
      (∀ e, w.listGatewayClasses = .error e →
        exitCode (runDescribe w "gatewayclasses" none) = 1) ∧
      (∀ n e, w.getGatewayClass n = .error e →
        exitCode (runDescribe w "gatewayclass" (some n)) = 1) ∧
      (∀ e, w.listBackends "service" (computedNs w) = .error e →
        exitCode (runDescribe w "backends" none) = 1) ∧
      (∀ n e, w.getBackend "service" (computedNs w) n = .error e →
        exitCode (runDescribe w "backend" (some n)) = 1) ∧
      ∀ n, describePolicyLookup w (computedNs w) n = none →
        runDescribe w "policy" (some n) = .done [] [] ∧
        exitCode (runDescribe w "policy" (some n)) = 0) := by
  refine ⟨?_, ?_, ?_⟩
  · intro hs
    exact ⟨fun k n? => by simp [runDescribe, hs],
      fun k => by simp [runGet, hs]⟩
  · intro hs hb
    exact ⟨fun k n? => by simp [runDescribe, hs, hb],
      fun k => by simp [runGet, hs, hb]⟩
  · intro hs hb
    refine ⟨?_, ?_, ?_, ?_, ?_, ?_, ?_, ?_, ?_⟩
    · intro e he
      constructor
      · simp [runDescribe, hs, hb, he, exitCode]
      · simp [runGet, hs, hb, he, exitCode]
    · intro n e he
      simp [runDescribe, hs, hb, he, exitCode]
    · intro e he
      simp [runDescribe, hs, hb, he, exitCode]
    · intro n e he
      simp [runDescribe, hs, hb, he, exitCode]
    · intro e he
      simp [runDescribe, hs, hb, he, exitCode]
    · intro n e he
      simp [runDescribe, hs, hb, he, exitCode]
    · intro e he
      simp [runDescribe, hs, hb, he, exitCode]
    · intro n e he
      simp [runDescribe, hs, hb, he, exitCode]
    · intro n hn
      constructor
      · simp [runDescribe, hs, hb, hn]
      · simp [runDescribe, hs, hb, hn, exitCode]

/-- C8: an unrecognized resource-type argument makes describe and get
print "Unrecognized RESOURCE_TYPE" to the error stream and return
normally — no `os.Exit` call, so the process completes with exit
code 0. -/
theorem claim8_unrecognized_kind_completes (w : CmdWorld) (kind : String)
    (name? : Option String)
    (hs : w.getStringErr = false) (hb : w.getBoolErr = false) :
    (kind ∉ recognizedDescribeKinds →
      runDescribe w kind name? = .done [] ["Unrecognized RESOURCE_TYPE"] ∧
      exitCode (runDescribe w kind name?) = 0) ∧
    (kind ∉ recognizedGetKinds →
      runGet w kind = .done [] ["Unrecognized RESOURCE_TYPE"] ∧
      exitCode (runGet w kind) = 0) := by
  constructor
  · intro hk
    simp only [recognizedDescribeKinds, List.mem_cons, List.mem_singleton,
      not_or] at hk
    obtain ⟨h1, h2, h3, h4, h5, h6, h7, h8, h9, h10⟩ := hk
    have hr : runDescribe w kind name? =
        .done [] ["Unrecognized RESOURCE_TYPE"] := by
      simp [runDescribe, hs, hb, h1, h2, h3, h4, h5, h6, h7, h8, h9,
        by simpa using h10]
    exact ⟨hr, by rw [hr]; rfl⟩
  · intro hk
    simp only [recognizedGetKinds, List.mem_cons, List.mem_singleton,
      not_or] at hk
    obtain ⟨h1, h2, h3, h4, h5⟩ := hk
    have hr : runGet w kind = .done [] ["Unrecognized RESOURCE_TYPE"] := by
      simp [runGet, hs, hb, h1, h2, h3, h4, by simpa using h5]
    exact ⟨hr, by rw [hr]; rfl⟩

/-- C9: the effective namespace of describe and get is `"default"` when
neither flag is given, the `-n` value when that flag is given, and the
all-namespaces value `""` whenever `-A` is set — `-A` overrides any
`-n` value. -/
theorem claim9_namespace_resolution (w : CmdWorld) :
    (w.allNsFlag = true → computedNs w = "") ∧
    (w.allNsFlag = false → w.nsFlag = none → computedNs w = "default") ∧
    (∀ v, w.allNsFlag = false → w.nsFlag = some v → computedNs w = v) := by
  refine ⟨?_, ?_, ?_⟩
  · intro h
    simp [computedNs, h]
  · intro h hn
    simp [computedNs, readNamespaceFlag, h, hn]
  · intro v h hn
    simp [computedNs, readNamespaceFlag, h, hn]

/-- C10 (amended): describe policy NAME looks the policy up first under
`"<namespace>/NAME"`; only when that misses and the effective namespace
is exactly `"default"` is a second, cluster-scoped lookup under
`"/NAME"` attempted; for any other namespace value a primary miss is
final.  (A cluster-scoped policy is nevertheless also reachable under
the all-namespaces empty value, since the primary key `"" ++ "/" ++
NAME` is itself `"/NAME"` — see the counterexample.)  The lookup used
by the command runs against the effective namespace. -/
theorem claim10_policy_lookup_fallback (w : CmdWorld) (ns n : String) :
    (∀ p, w.getPolicy (ns ++ "/" ++ n) = some p →
      describePolicyLookup w ns n = some p) ∧
    (w.getPolicy (ns ++ "/" ++ n) = none → ns = "default" →
      describePolicyLookup w ns n = w.getPolicy ("/" ++ n)) ∧
    (w.getPolicy (ns ++ "/" ++ n) = none → ns ≠ "default" →
      describePolicyLookup w ns n = none) ∧
    (w.getStringErr = false → w.getBoolErr = false →
      runDescribe w "policy" (some n) =
        .done (describePolicyLookup w (computedNs w) n).toList []) := by
  refine ⟨?_, ?_, ?_, ?_⟩
  · intro p hp
    rw [describePolicyLookup, hp]
  · intro hp hd
    rw [describePolicyLookup, hp, if_pos hd]
  · intro hp hd
    rw [describePolicyLookup, hp, if_neg hd]
  · intro hs hb
    simp [runDescribe, hs, hb]

/-- Example policy kind used by the concrete scenarios. -/
def gkEx : GroupKind := ⟨"gateway.networking.k8s.io", "TimeoutPolicy"⟩

/-- Example HTTPRoute target. -/
def routeEx : ResourceRef := ⟨"HTTPRoute", "default", "r1"⟩

/-- Example parent Gateway of `routeEx`. -/
def gwEx : ResourceRef := ⟨"Gateway", "default", "gw1"⟩

/-- Example Inheritable CRD for `gkEx`. -/
def crdInheritable : PolicyCRD := ⟨gkEx, ["HTTPRoute", "Gateway"], .inheritable⟩

/-- Example parent edges: the route's parent is the gateway. -/
def parentEx : ResourceRef → Option ResourceRef :=
  fun r => if r = routeEx then some gwEx else none

/-- Example Direct policy on the route. -/
def directInst : PolicyInstance :=
  ⟨gkEx, routeEx, 5, "pc", .obj [("timeout", .num 5)]⟩

/-- Example inherited policy on the gateway. -/
def inheritedInst : PolicyInstance :=
  ⟨gkEx, gwEx, 1, "pb", .obj [("timeout", .num 10), ("retries", .num 3)]⟩

/-- Example snapshot with one Direct and one inherited policy. -/
def snapEx : GraphSnapshot := ⟨[crdInheritable], [directInst, inheritedInst], parentEx⟩

theorem claim1_witness :
    lookupPath (computeEffectivePolicy snapEx routeEx gkEx).1.value
      ["timeout"] = some (.num 5) :=
  (claim1_direct_policy_precedence snapEx routeEx gkEx).2 directInst
    ["timeout"] (.num 5) (by rfl) (by rfl) (by rfl)

theorem claim2_witness :
    lookupPath (merge (.obj [("x", .num 1)]) (.obj [("x", .num 7)])) ["x"] =
      some (.num 7) ∧
    lookupPath (merge (.obj [("a", .num 1), ("c", .num 3)])
        (.obj [("a", .num 2), ("d", .num 4)])) ["a"] =
      some (merge (.num 1) (.num 2)) ∧
    lookupPath (merge (.obj [("a", .num 1), ("c", .num 3)])
        (.obj [("a", .num 2), ("d", .num 4)])) ["c"] = some (.num 3) ∧
    lookupPath (merge (.obj [("a", .num 1), ("c", .num 3)])
        (.obj [("a", .num 2), ("d", .num 4)])) ["d"] = some (.num 4) ∧
    lookupPath (merge (.obj [("l", .list [.num 1, .num 2])])
        (.obj [("l", .list [.num 9])])) ["l"] = some (.list [.num 9]) :=
  ⟨claim2_merge_structural_semantics.1 (.obj [("x", .num 1)])
      (.obj [("x", .num 7)]) ["x"] (.num 7) (by rfl) (by rfl),
   claim2_merge_structural_semantics.2.1 [("a", .num 1), ("c", .num 3)]
      [("a", .num 2), ("d", .num 4)] "a" (.num 1) (.num 2) (by rfl) (by rfl),
   claim2_merge_structural_semantics.2.2.1 [("a", .num 1), ("c", .num 3)]
      [("a", .num 2), ("d", .num 4)] "c" (.num 3) (by rfl) (by rfl),
   claim2_merge_structural_semantics.2.2.2.1 [("a", .num 1), ("c", .num 3)]
      [("a", .num 2), ("d", .num 4)] "d" (.num 4) (by rfl) (by rfl),
   claim2_merge_structural_semantics.2.2.2.2 (.obj [("l", .list [.num 1, .num 2])])
      (.obj [("l", .list [.num 9])]) ["l"] [.num 9] (by rfl)⟩

/-- Second CRD for the permutation scenario. -/
def crdOther : PolicyCRD := ⟨⟨"g2.io", "RetryPolicy"⟩, ["Gateway"], .directOnly⟩

/-- Permutation scenario, one ordering. -/
def snapP1 : GraphSnapshot :=
  ⟨[crdInheritable, crdOther], [directInst, inheritedInst], parentEx⟩

/-- Permutation scenario, the other ordering. -/
def snapP2 : GraphSnapshot :=
  ⟨[crdOther, crdInheritable], [inheritedInst, directInst], parentEx⟩

theorem claim3_witness :
    computeEffectivePolicy snapP1 routeEx gkEx =
      computeEffectivePolicy snapP2 routeEx gkEx := by
  apply claim3_permutation_determinism
  · exact List.Perm.swap inheritedInst directInst []
  · exact List.Perm.swap crdOther crdInheritable []
  · rfl
  · intro i hi j hj hnm
    simp only [snapP1, List.mem_cons, List.not_mem_nil, or_false] at hi hj
    rcases hi with rfl | rfl <;> rcases hj with rfl | rfl <;>
      first
      | rfl
      | exact absurd hnm (by decide)
  · intro c hc d hd hgk
    simp only [snapP1, List.mem_cons, List.not_mem_nil, or_false] at hc hd
    rcases hc with rfl | rfl <;> rcases hd with rfl | rfl <;>
      first
      | rfl
      | exact absurd hgk (by decide)

/-- DirectOnly policy kind for the non-propagation scenario. -/
def gkD : GroupKind := ⟨"g.io", "AccessPolicy"⟩

/-- DirectOnly CRD. -/
def crdDirectOnly : PolicyCRD := ⟨gkD, ["HTTPRoute", "Gateway"], .directOnly⟩

/-- A DirectOnly policy attached to the route's ancestor gateway. -/
def ancInst : PolicyInstance :=
  ⟨gkD, gwEx, 1, "pa", .obj [("allow", .bool true)]⟩

/-- Snapshot where the only policy of the kind sits on an ancestor and
the kind is DirectOnly. -/
def snapD : GraphSnapshot := ⟨[crdDirectOnly], [ancInst], parentEx⟩

theorem claim4_witness :
    (computeEffectivePolicy snapD routeEx gkD).1 =
      (computeEffectivePolicy { snapD with parent := fun _ => none }
        routeEx gkD).1 ∧
    ∀ pr ∈ (computeEffectivePolicy snapD routeEx gkD).1.provenance,
      ∃ i ∈ policiesTargeting snapD gkD routeEx, pr.2 = i.name :=
  claim4_directonly_never_propagates snapD routeEx gkD crdDirectOnly
    (by rfl) (by rfl)

/-- Two resources forming a parent cycle. -/
def aEx : ResourceRef := ⟨"Gateway", "default", "a"⟩

/-- Second member of the cycle. -/
def bEx : ResourceRef := ⟨"GatewayClass", "", "b"⟩

/-- Adversarial cyclic parent edges. -/
def parentCyc : ResourceRef → Option ResourceRef :=
  fun r => if r = aEx then some bEx else if r = bEx then some aEx else none

/-- Adversarial snapshot with a parent cycle. -/
def snapCyc : GraphSnapshot := ⟨[], [], parentCyc⟩

theorem claim5_witness :
    Warning.cycleDetected ∈ (ancestorChain snapCyc aEx).2 :=
  (claim5_chain_bounded_acyclic snapCyc aEx).2.2.2 0 2 aEx (by omega)
    (by decide) (by rfl) (by rfl)

theorem claim6_witness :
    lookupPath (merge (.obj [("x", .num 1)]) (.obj [("x", .str "s")]))
      ["x"] = some (.str "s") ∧
    ["x"] ∈ mergeConflicts (.obj [("x", .num 1)]) (.obj [("x", .str "s")]) :=
  claim6_merge_conflict_override_wins (.obj [("x", .num 1)])
    (.obj [("x", .str "s")]) ["x"] (.num 1) (.str "s") (by rfl) (by rfl)
    (by decide)

/-- World whose namespace flag read fails. -/
def wFlagErr : CmdWorld := { wPolicyMissing with getStringErr := true }

/-- World whose all-namespaces flag read fails. -/
def wBoolErr : CmdWorld := { wPolicyMissing with getBoolErr := true }

/-- World whose list fetches fail. -/
def wFetchErr : CmdWorld :=
  { wPolicyMissing with
    listHTTPRoutes := fun _ => .error "boom"
    listGateways := fun _ => .error "boom"
    listGatewayClasses := .error "boom"
    listBackends := fun _ _ => .error "boom" }

theorem claim7_witness :
    runDescribe wFlagErr "policies" none =
      .exit1 "failed to read flag \"namespace\"" ∧
    runGet wBoolErr "policies" =
      .exit1 "failed to read flag \"all-namespaces\"" ∧
    exitCode (runDescribe wFetchErr "httproutes" none) = 1 ∧
    exitCode (runDescribe wFetchErr "gateway" (some "g")) = 1 ∧
    exitCode (runDescribe wPolicyMissing "policy" (some "missing")) = 0 :=
  ⟨((claim7_error_exit_semantics wFlagErr).1 rfl).1 "policies" none,
   ((claim7_error_exit_semantics wBoolErr).2.1 rfl rfl).2 "policies",
   (((claim7_error_exit_semantics wFetchErr).2.2 rfl rfl).1 "boom"
     (by rfl)).1,
   ((claim7_error_exit_semantics wFetchErr).2.2 rfl rfl).2.2.2.1 "g"
     "the server could not find the requested resource" (by rfl),
   (((claim7_error_exit_semantics wPolicyMissing).2.2 rfl
     rfl).2.2.2.2.2.2.2.2 "missing" (by rfl)).2⟩

theorem claim8_witness :
    runDescribe wPolicyMissing "foo" none =
      .done [] ["Unrecognized RESOURCE_TYPE"] ∧
    runGet wPolicyMissing "foo" = .done [] ["Unrecognized RESOURCE_TYPE"] :=
  ⟨((claim8_unrecognized_kind_completes wPolicyMissing "foo" none rfl rfl).1
      (by decide)).1,
   ((claim8_unrecognized_kind_completes wPolicyMissing "foo" none rfl rfl).2
      (by decide)).1⟩

/-- World invoked with `-A` (and a `-n` value, to show `-A` wins). -/
def wAllNs : CmdWorld :=
  { wPolicyMissing with allNsFlag := true, nsFlag := some "prod" }

/-- World invoked with `-n prod`. -/
def wNsProd : CmdWorld := { wPolicyMissing with nsFlag := some "prod" }

theorem claim9_witness :
    computedNs wAllNs = "" ∧
    computedNs wPolicyMissing = "default" ∧
    computedNs wNsProd = "prod" :=
  ⟨(claim9_namespace_resolution wAllNs).1 rfl,
   (claim9_namespace_resolution wPolicyMissing).2.1 rfl rfl,
   (claim9_namespace_resolution wNsProd).2.2 "prod" rfl rfl⟩

/-- World holding only a cluster-scoped policy, keyed `"/tls-policy"`. -/
def wClusterPolicy : CmdWorld :=
  { wPolicyMissing with
    getPolicy := fun k => if k = "/tls-policy" then some "tls-policy" else none }

/-- C10 counterexample: with the all-namespaces value (the empty
string) the primary lookup key `"" ++ "/" ++ NAME` is exactly the
cluster-scoped key `"/NAME"`, so the cluster-scoped policy is found
under a namespace value different from `"default"` — contradicting the
claim that a cluster-scoped policy is reachable by name only under the
default namespace. -/
theorem claim10_counterexample :
    describePolicyLookup wClusterPolicy "" "tls-policy" =
      some "tls-policy" ∧ ("" : String) ≠ "default" := by
  constructor
  · simp [describePolicyLookup, wClusterPolicy]
  · decide

theorem claim10_witness :
    describePolicyLookup wClusterPolicy "default" "tls-policy" =
      wClusterPolicy.getPolicy "/tls-policy" ∧
    describePolicyLookup wClusterPolicy "prod" "tls-policy" = none ∧
    runDescribe wClusterPolicy "policy" (some "tls-policy") =
      .done (describePolicyLookup wClusterPolicy (computedNs wClusterPolicy)
        "tls-policy").toList [] :=
  ⟨(claim10_policy_lookup_fallback wClusterPolicy "default" "tls-policy").2.1
      (by simp [wClusterPolicy]) rfl,
   (claim10_policy_lookup_fallback wClusterPolicy "prod" "tls-policy").2.2.1
      (by simp [wClusterPolicy]) (by decide),
   (claim10_policy_lookup_fallback wClusterPolicy "prod" "tls-policy").2.2.2
      rfl rfl⟩

end GatewayApi
